import Mathlib

/-!
Verification of the booking/payment/payout data-model rules of the
agri_machinery_rental repository (src/core/models.py).

The repository is a declarative Django schema: `models.py` declares the
entities, their fields, field validators and uniqueness constraints, while
the booking-lifecycle operations themselves (booking creation with the
overlap check, status transitions, payment recording, payout creation,
review creation) are described by the specification but not implemented in
the source.  Following that split, this file embeds:

* directly from `models.py`: the enumerations (`RentalBooking.Status`,
  `RentalBooking.PaymentStatus`, `Equipment.Status`, `Payment.Type`,
  `OperatorPayout.Status` fields), the shapes of the records, the
  `MinValueValidator(Decimal('0.01'))` on `Equipment.daily_rate`, the
  `unique=True` on `Payment.transaction_id`, the `OneToOneField` from
  `OperatorPayout` to `RentalBooking` and the
  `unique_together ('booking', 'reviewer')` on `BookingReview`;
* modelled from the spec: the lifecycle operations (spec sections 4.1-4.3
  and 7), as explicit state-transforming functions over an in-memory state.

Monetary `DecimalField(decimal_places=2)` values are embedded as integers
counted in cents (hundredths of a currency unit), and the percentage
`platform_fee_percent` (`decimal_places=2`) as an integer counted in
hundredths of a percent, so that `10.00` percent is `1000`.  Dates are
embedded as integer day numbers.
-/

/-- Exact decimal number, as Python's `Decimal`: `mant * 10 ^ (-exp)`.
Used to embed the `daily_rate` validator from models.py line 104-105. -/
structure DecimalVal where
  mant : ℤ
  exp : ℕ
deriving DecidableEq, Repr

/-- Rational value of a `DecimalVal`. -/
def DecimalVal.toRat (d : DecimalVal) : ℚ := (d.mant : ℚ) / 10 ^ d.exp

/-- Strict comparison of two exact decimals (by cross-multiplication). -/
def DecimalVal.lt (a b : DecimalVal) : Bool :=
  decide (a.mant * 10 ^ b.exp < b.mant * 10 ^ a.exp)

/-- Django's `MinValueValidator(limit)`: the value is rejected exactly when
it is strictly below the limit. -/
def minValueValidatorOk (limit v : DecimalVal) : Bool := ! v.lt limit

/-- The limit `Decimal('0.01')` from models.py line 105. -/
def dailyRateMin : DecimalVal := ⟨1, 2⟩

/-- Validation of `Equipment.daily_rate`
(`validators=[MinValueValidator(Decimal('0.01'))]`, models.py 104-105). -/
def dailyRateValid (v : DecimalVal) : Bool := minValueValidatorOk dailyRateMin v

/-- `RentalBooking.Status` (models.py 157-164). -/
inductive BStatus
  | pending
  | confirmed
  | inProgress
  | completed
  | cancelledFarmer
  | cancelledOperator
  | disputed
deriving DecidableEq, Repr

/-- Terminal booking states (spec section 4.1: COMPLETED, the two CANCELLED
states and DISPUTED are terminal). -/
def BStatus.isTerminal : BStatus → Bool
  | .completed => true
  | .cancelledFarmer => true
  | .cancelledOperator => true
  | .disputed => true
  | _ => false

/-- A booking in this status blocks its date range on the equipment
(spec section 4.1: a non-cancelled, non-completed state). -/
def BStatus.blocksDates : BStatus → Bool
  | .completed => false
  | .cancelledFarmer => false
  | .cancelledOperator => false
  | _ => true

/-- `RentalBooking.PaymentStatus` (models.py 166-170). -/
inductive PayStatus
  | unpaid
  | depositPaid
  | fullyPaid
  | refunded
deriving DecidableEq, Repr

/-- `Payment.Type` (models.py 225-228). -/
inductive PType
  | deposit
  | final
  | refund
deriving DecidableEq, Repr

/-- `Equipment.Status` (models.py 79-83). -/
inductive EStatus
  | available
  | rented
  | maintenance
  | inactive
deriving DecidableEq, Repr

/-- Error taxonomy of spec section 7. -/
inductive Err
  | validation
  | invalidTransition
  | conflict
  | duplicateTransaction
  | notFound
deriving DecidableEq, Repr

/-- Modelled from the spec (section 4.1): the booking state machine
PENDING → CONFIRMED → IN_PROGRESS → COMPLETED, with PENDING/CONFIRMED →
CANCELLED_FARMER/CANCELLED_OPERATOR and any active state → DISPUTED; the
transition logic is not implemented in src (models.py stores the status as
a plain choices field, line 199). -/
def allowedTransition : BStatus → BStatus → Bool
  | .pending, .confirmed => true
  | .pending, .cancelledFarmer => true
  | .pending, .cancelledOperator => true
  | .pending, .disputed => true
  | .confirmed, .inProgress => true
  | .confirmed, .cancelledFarmer => true
  | .confirmed, .cancelledOperator => true
  | .confirmed, .disputed => true
  | .inProgress, .completed => true
  | .inProgress, .disputed => true
  | _, _ => false

/-- Modelled from the spec (section 4.1): the equipment status forced by a
booking entering the given state — RENTED on CONFIRMED/IN_PROGRESS,
AVAILABLE again on COMPLETED/CANCELLED, no effect otherwise. -/
def equipmentEffect : BStatus → Option EStatus
  | .confirmed => some .rented
  | .inProgress => some .rented
  | .completed => some .available
  | .cancelledFarmer => some .available
  | .cancelledOperator => some .available
  | _ => none

/-- `RentalBooking` (models.py 155-213), restricted to the fields the
lifecycle rules read: identity, parties, equipment, requested date range,
total amount (cents) and the two status fields. -/
structure Booking where
  id : ℕ
  equipmentId : ℕ
  farmerUserId : ℕ
  operatorUserId : ℕ
  requestedStartDate : ℤ
  requestedEndDate : ℤ
  totalAmount : ℤ
  status : BStatus
  paymentStatus : PayStatus
deriving DecidableEq, Repr

/-- `Payment` (models.py 216-241): booking reference, globally unique
transaction id, type, amount in cents, confirmation flag. -/
structure Payment where
  bookingId : ℕ
  transactionId : ℕ
  ptype : PType
  amount : ℤ
  isConfirmed : Bool
deriving DecidableEq, Repr

/-- `OperatorPayout` (models.py 244-266): one-to-one booking reference and
the money fields, in cents; `platformFeePercent` in hundredths of a
percent (the default `10.00` is `1000`). -/
structure Payout where
  bookingId : ℕ
  grossAmount : ℤ
  platformFeePercent : ℤ
  platformFeeAmount : ℤ
  netAmount : ℤ
deriving DecidableEq, Repr

/-- `BookingReview` (models.py 269-284): booking, reviewer and reviewee. -/
structure Review where
  bookingId : ℕ
  reviewerId : ℕ
  revieweeId : ℕ
deriving DecidableEq, Repr

/-- The persistent state: equipment units (id with status) and the four
transaction tables. -/
structure MState where
  equipment : List (ℕ × EStatus)
  bookings : List Booking
  payments : List Payment
  payouts : List Payout
  reviews : List Review
deriving DecidableEq, Repr

/-- Two inclusive day ranges intersect (spec section 4.1 overlap check). -/
def datesOverlap (s1 e1 s2 e2 : ℤ) : Bool := decide (s1 ≤ e2 ∧ s2 ≤ e1)

/-- An existing booking conflicts with a creation request for equipment
`eqId` over `[s, e]` (spec section 4.1): same equipment, blocking state,
intersecting ranges. -/
def conflictsWith (eqId : ℕ) (s e : ℤ) (b : Booking) : Bool :=
  decide (b.equipmentId = eqId) && b.status.blocksDates &&
    datesOverlap b.requestedStartDate b.requestedEndDate s e

/-- A confirmed DEPOSIT or FINAL payment of the given booking. -/
def isConfirmedCharge (bid : ℕ) (p : Payment) : Bool :=
  decide (p.bookingId = bid) && p.isConfirmed &&
    (decide (p.ptype = PType.deposit) || decide (p.ptype = PType.final))

/-- A confirmed REFUND payment of the given booking. -/
def isConfirmedRefund (bid : ℕ) (p : Payment) : Bool :=
  decide (p.bookingId = bid) && p.isConfirmed && decide (p.ptype = PType.refund)

/-- Sum of the amounts of a list of payments. -/
def sumAmounts (l : List Payment) : ℤ := l.foldr (fun p a => p.amount + a) 0

/-- Total confirmed refunds of a booking. -/
def refundedAmount (ps : List Payment) (bid : ℕ) : ℤ :=
  sumAmounts (ps.filter (isConfirmedRefund bid))

/-- Effective paid amount of a booking (spec section 4.2): confirmed
DEPOSIT plus FINAL amounts minus confirmed REFUND amounts. -/
def paidAmount (ps : List Payment) (bid : ℕ) : ℤ :=
  sumAmounts (ps.filter (isConfirmedCharge bid)) - refundedAmount ps bid

/-- Modelled from the spec (section 4.2): the pure function deriving
`RentalBooking.payment_status` from the payment ledger — REFUNDED when a
refund fully reverses prior payment, otherwise UNPAID / DEPOSIT_PAID /
FULLY_PAID by comparing the paid amount with the total; the derivation is
not implemented in src (models.py stores the field, line 200). -/
def derivePaymentStatus (ps : List Payment) (bid : ℕ) (total : ℤ) : PayStatus :=
  let paid := paidAmount ps bid
  if 0 < refundedAmount ps bid ∧ paid ≤ 0 then .refunded
  else if paid ≤ 0 then .unpaid
  else if paid < total then .depositPaid
  else .fullyPaid

/-- Nearest-integer rounding of `a / 10000` (half rounds up): the platform
fee in cents, where `a` is gross cents times fee in hundredths of a
percent.  Dividing by `10000` undoes the two scale factors of `100`. -/
def roundCents (a : ℤ) : ℤ := (2 * a + 10000) / 20000

/-- Modelled from the spec (section 4.3): payout computation for a
completed booking — `platform_fee_amount` is the gross times the fee
percentage rounded to whole cents, `net_amount` the remainder; not
implemented in src (models.py only declares the fields, lines 254-257). -/
def mkPayout (bid : ℕ) (gross pct : ℤ) : Payout :=
  let fee := roundCents (gross * pct)
  ⟨bid, gross, pct, fee, gross - fee⟩

/-- Status update of the booking with the given id. -/
def updStatus (bid : ℕ) (new : BStatus) (b : Booking) : Booking :=
  if b.id = bid then { b with status := new } else b

/-- Apply a status update to a booking table. -/
def setBookingStatus (bs : List Booking) (bid : ℕ) (new : BStatus) : List Booking :=
  bs.map (updStatus bid new)

/-- Set the status of the given equipment unit. -/
def setEquipmentStatus (l : List (ℕ × EStatus)) (k : ℕ) (es : EStatus) :
    List (ℕ × EStatus) :=
  l.map (fun p => if p.1 = k then (p.1, es) else p)

/-- Current status of an equipment unit. -/
def lookupEquip (l : List (ℕ × EStatus)) (k : ℕ) : Option EStatus :=
  (l.find? (fun p => decide (p.1 = k))).map (fun p => p.2)

/-- Apply an optional forced equipment status to the unit `k`. -/
def applyEquipEffect (l : List (ℕ × EStatus)) (k : ℕ) : Option EStatus → List (ℕ × EStatus)
  | some es => setEquipmentStatus l k es
  | none => l

/-- Recompute the stored payment status of the booking with the given id
from the ledger `ps`. -/
def updPayStatus (ps : List Payment) (bid : ℕ) (b : Booking) : Booking :=
  if b.id = bid then { b with paymentStatus := derivePaymentStatus ps b.id b.totalAmount }
  else b

/-- Apply a payment-status recomputation to a booking table. -/
def recomputePayStatus (bs : List Booking) (ps : List Payment) (bid : ℕ) :
    List Booking :=
  bs.map (updPayStatus ps bid)

/-- The operations of the lifecycle, as requests. -/
inductive Cmd
  | addEquipment (eqId : ℕ)
  | createBooking (bid eqId fUid oUid : ℕ) (s e total : ℤ)
  | transition (bid : ℕ) (new : BStatus)
  | recordPayment (bid txid : ℕ) (pt : PType) (amount : ℤ) (conf : Bool)
  | addReview (bid reviewer reviewee : ℕ)
deriving DecidableEq, Repr

/-- Modelled from the spec (sections 4.1-4.3 and 7): the lifecycle
operations over the persistent state; none of them is implemented in src
(models.py is declarative).  Booking creation validates the date order and
the amount, then rejects date-range conflicts on the same equipment with
`Conflict`; transitions follow the state machine, drive the equipment
status, and completing a booking creates its payout; payments reject a
reused transaction id with `DuplicateTransaction` and keep the stored
payment status equal to the derived one; reviews enforce one per
(booking, reviewer) and that the parties are the booking's farmer and
operator users. -/
def applyCmd (st : MState) : Cmd → Except Err MState
  | .addEquipment eqId =>
    if st.equipment.any (fun p => decide (p.1 = eqId)) then .error .validation
    else .ok { st with equipment := (eqId, EStatus.available) :: st.equipment }
  | .createBooking bid eqId fUid oUid s e total =>
    if e < s then .error .validation
    else if total < 0 then .error .validation
    else if st.bookings.any (fun b => decide (b.id = bid)) then .error .validation
    else if !st.equipment.any (fun p => decide (p.1 = eqId)) then .error .notFound
    else if st.bookings.any (conflictsWith eqId s e) then .error .conflict
    else .ok { st with bookings :=
      ⟨bid, eqId, fUid, oUid, s, e, total, .pending, .unpaid⟩ :: st.bookings }
  | .transition bid new =>
    match st.bookings.find? (fun b => decide (b.id = bid)) with
    | none => .error .notFound
    | some b =>
      if allowedTransition b.status new then
        .ok { st with
          bookings := setBookingStatus st.bookings bid new
          equipment := applyEquipEffect st.equipment b.equipmentId (equipmentEffect new)
          payouts :=
            if new = BStatus.completed then
              mkPayout bid (b.totalAmount - refundedAmount st.payments bid) 1000
                :: st.payouts
            else st.payouts }
      else .error .invalidTransition
  | .recordPayment bid txid pt amount conf =>
    if st.payments.any (fun p => decide (p.transactionId = txid)) then
      .error .duplicateTransaction
    else
      match st.bookings.find? (fun b => decide (b.id = bid)) with
      | none => .error .notFound
      | some _ =>
        let ps := Payment.mk bid txid pt amount conf :: st.payments
        .ok { st with payments := ps, bookings := recomputePayStatus st.bookings ps bid }
  | .addReview bid reviewer reviewee =>
    match st.bookings.find? (fun b => decide (b.id = bid)) with
    | none => .error .notFound
    | some b =>
      if st.reviews.any (fun r => decide (r.bookingId = bid ∧ r.reviewerId = reviewer)) then
        .error .validation
      else if (reviewer = b.farmerUserId ∧ reviewee = b.operatorUserId) ∨
              (reviewer = b.operatorUserId ∧ reviewee = b.farmerUserId) then
        .ok { st with reviews := ⟨bid, reviewer, reviewee⟩ :: st.reviews }
      else .error .validation

/-- A failed request leaves the state unchanged (spec section 7: errors are
surfaced, never silently retried). -/
def step (st : MState) (c : Cmd) : MState :=
  match applyCmd st c with
  | .ok st1 => st1
  | .error _ => st

/-- Run a list of requests. -/
def runCmds (st : MState) : List Cmd → MState
  | [] => st
  | c :: cs => runCmds (step st c) cs

/-- The empty initial state. -/
def initState : MState := ⟨[], [], [], [], []⟩

/-- A state the system can be in. -/
def Reachable (st : MState) : Prop := ∃ cs, runCmds initState cs = st

/-- Two distinct bookings do not double-book equipment: if they are on the
same equipment and both in a blocking (non-cancelled, non-completed)
state, their requested ranges do not intersect. -/
def noConflictPair (a b : Booking) : Prop :=
  a.equipmentId = b.equipmentId → a.status.blocksDates = true →
    b.status.blocksDates = true →
    datesOverlap a.requestedStartDate a.requestedEndDate
      b.requestedStartDate b.requestedEndDate = false

/-- The inductive invariant of the lifecycle: all the state-consistency
rules of spec sections 3, 4.1-4.3 and 8 together. -/
structure SysInv (st : MState) : Prop where
  idsNodup : st.bookings.Pairwise fun a b => a.id ≠ b.id
  dates : ∀ b ∈ st.bookings, b.requestedStartDate ≤ b.requestedEndDate
  totals : ∀ b ∈ st.bookings, 0 ≤ b.totalAmount
  equipExists : ∀ b ∈ st.bookings, ∃ v, (b.equipmentId, v) ∈ st.equipment
  noOverlap : st.bookings.Pairwise noConflictPair
  txNodup : st.payments.Pairwise fun p q => p.transactionId ≠ q.transactionId
  payHasBooking : ∀ p ∈ st.payments, ∃ b ∈ st.bookings, b.id = p.bookingId
  payDerived : ∀ b ∈ st.bookings,
    b.paymentStatus = derivePaymentStatus st.payments b.id b.totalAmount
  payoutNodup : st.payouts.Pairwise fun p q => p.bookingId ≠ q.bookingId
  payoutCompleted : ∀ po ∈ st.payouts,
    ∃ b ∈ st.bookings, b.id = po.bookingId ∧ b.status = BStatus.completed
  completedPayout : ∀ b ∈ st.bookings, b.status = BStatus.completed →
    ∃ po ∈ st.payouts, po.bookingId = b.id
  payoutArith : ∀ po ∈ st.payouts,
    po.platformFeeAmount = roundCents (po.grossAmount * po.platformFeePercent) ∧
      po.netAmount = po.grossAmount - po.platformFeeAmount
  reviewNodup : st.reviews.Pairwise fun r q =>
    r.bookingId = q.bookingId → r.reviewerId ≠ q.reviewerId
  reviewParties : ∀ r ∈ st.reviews, ∃ b ∈ st.bookings, b.id = r.bookingId ∧
    ((r.reviewerId = b.farmerUserId ∧ r.revieweeId = b.operatorUserId) ∨
     (r.reviewerId = b.operatorUserId ∧ r.revieweeId = b.farmerUserId))

/-- A full lifecycle: equipment 1 is created, booked by farmer user 10
with operator user 11 for days 5 to 8 at total 100.00 (10000 cents), paid
by a 40.00 deposit and a 60.00 final payment, run to completion, and
reviewed by both parties. -/
def demoFull : List Cmd :=
  [.addEquipment 1,
   .createBooking 1 1 10 11 5 8 10000,
   .recordPayment 1 501 .deposit 4000 true,
   .transition 1 .confirmed,
   .transition 1 .inProgress,
   .recordPayment 1 502 .final 6000 true,
   .transition 1 .completed,
   .addReview 1 10 11,
   .addReview 1 11 10]

/-- The state after `demoFull`. -/
def demoSt : MState := runCmds initState demoFull

/-- A shorter run whose booking is CONFIRMED, so it still blocks its
dates. -/
def demoMid : List Cmd :=
  [.addEquipment 1,
   .createBooking 1 1 10 11 5 8 10000,
   .transition 1 .confirmed]

/-- The state after `demoMid`. -/
def demoMidSt : MState := runCmds initState demoMid

/-- The two setup requests of `demoMid`, before any transition. -/
def demoPre : List Cmd :=
  [.addEquipment 1,
   .createBooking 1 1 10 11 5 8 10000]

/-- The state after `demoPre`. -/
def demoPreSt : MState := runCmds initState demoPre

/-- In a table with pairwise-distinct ids, two members with the same id
coincide. -/
theorem mem_unique_id {l : List Booking} (h : l.Pairwise fun a b => a.id ≠ b.id)
    {a b : Booking} (ha : a ∈ l) (hb : b ∈ l) (hid : a.id = b.id) : a = b := by
  induction l with
  | nil => cases ha
  | cons x xs ih =>
    rcases List.pairwise_cons.mp h with ⟨hx, hxs⟩
    rcases List.mem_cons.mp ha with rfl | ha2
    · rcases List.mem_cons.mp hb with rfl | hb2
      · rfl
      · exact absurd hid (hx _ hb2)
    · rcases List.mem_cons.mp hb with rfl | hb2
      · exact absurd hid.symm (hx _ ha2)
      · exact ih hxs ha2 hb2

/-- No transition leaves a terminal state. -/
theorem terminal_not_allowed {s t : BStatus} (hs : s.isTerminal = true) :
    allowedTransition s t = false := by
  revert hs; cases s <;> cases t <;> decide

/-- A transition into a blocking state starts from a blocking state. -/
theorem allowed_blocks {s t : BStatus} (h : allowedTransition s t = true)
    (ht : t.blocksDates = true) : s.blocksDates = true := by
  revert h ht; cases s <;> cases t <;> decide

/-- No allowed transition starts at COMPLETED. -/
theorem allowed_src_ne_completed {s t : BStatus} (h : allowedTransition s t = true) :
    s ≠ BStatus.completed := by
  revert h; cases s <;> cases t <;> decide

/-- The date-overlap test is symmetric. -/
theorem datesOverlap_comm (s1 e1 s2 e2 : ℤ) :
    datesOverlap s1 e1 s2 e2 = datesOverlap s2 e2 s1 e1 := by
  simp only [datesOverlap]
  exact decide_eq_decide.mpr and_comm

theorem updStatus_id (bid : ℕ) (new : BStatus) (b : Booking) :
    (updStatus bid new b).id = b.id := by
  unfold updStatus; split <;> rfl

theorem updStatus_equipmentId (bid : ℕ) (new : BStatus) (b : Booking) :
    (updStatus bid new b).equipmentId = b.equipmentId := by
  unfold updStatus; split <;> rfl

theorem updStatus_start (bid : ℕ) (new : BStatus) (b : Booking) :
    (updStatus bid new b).requestedStartDate = b.requestedStartDate := by
  unfold updStatus; split <;> rfl

theorem updStatus_end (bid : ℕ) (new : BStatus) (b : Booking) :
    (updStatus bid new b).requestedEndDate = b.requestedEndDate := by
  unfold updStatus; split <;> rfl

theorem updStatus_total (bid : ℕ) (new : BStatus) (b : Booking) :
    (updStatus bid new b).totalAmount = b.totalAmount := by
  unfold updStatus; split <;> rfl

theorem updStatus_payment (bid : ℕ) (new : BStatus) (b : Booking) :
    (updStatus bid new b).paymentStatus = b.paymentStatus := by
  unfold updStatus; split <;> rfl

theorem updStatus_farmer (bid : ℕ) (new : BStatus) (b : Booking) :
    (updStatus bid new b).farmerUserId = b.farmerUserId := by
  unfold updStatus; split <;> rfl

theorem updStatus_operator (bid : ℕ) (new : BStatus) (b : Booking) :
    (updStatus bid new b).operatorUserId = b.operatorUserId := by
  unfold updStatus; split <;> rfl

theorem updStatus_status (bid : ℕ) (new : BStatus) (b : Booking) :
    (updStatus bid new b).status = if b.id = bid then new else b.status := by
  unfold updStatus; split <;> rfl

theorem updPayStatus_id (ps : List Payment) (bid : ℕ) (b : Booking) :
    (updPayStatus ps bid b).id = b.id := by
  unfold updPayStatus; split <;> rfl

theorem updPayStatus_equipmentId (ps : List Payment) (bid : ℕ) (b : Booking) :
    (updPayStatus ps bid b).equipmentId = b.equipmentId := by
  unfold updPayStatus; split <;> rfl

theorem updPayStatus_start (ps : List Payment) (bid : ℕ) (b : Booking) :
    (updPayStatus ps bid b).requestedStartDate = b.requestedStartDate := by
  unfold updPayStatus; split <;> rfl

theorem updPayStatus_end (ps : List Payment) (bid : ℕ) (b : Booking) :
    (updPayStatus ps bid b).requestedEndDate = b.requestedEndDate := by
  unfold updPayStatus; split <;> rfl

theorem updPayStatus_total (ps : List Payment) (bid : ℕ) (b : Booking) :
    (updPayStatus ps bid b).totalAmount = b.totalAmount := by
  unfold updPayStatus; split <;> rfl

theorem updPayStatus_status (ps : List Payment) (bid : ℕ) (b : Booking) :
    (updPayStatus ps bid b).status = b.status := by
  unfold updPayStatus; split <;> rfl

theorem updPayStatus_farmer (ps : List Payment) (bid : ℕ) (b : Booking) :
    (updPayStatus ps bid b).farmerUserId = b.farmerUserId := by
  unfold updPayStatus; split <;> rfl

theorem updPayStatus_operator (ps : List Payment) (bid : ℕ) (b : Booking) :
    (updPayStatus ps bid b).operatorUserId = b.operatorUserId := by
  unfold updPayStatus; split <;> rfl

theorem updPayStatus_payment (ps : List Payment) (bid : ℕ) (b : Booking) :
    (updPayStatus ps bid b).paymentStatus =
      if b.id = bid then derivePaymentStatus ps b.id b.totalAmount
      else b.paymentStatus := by
  unfold updPayStatus; split <;> rfl

/-- A payment of another booking does not change the derived status. -/
theorem derivePaymentStatus_cons_ne {p : Payment} {ps : List Payment} {bid : ℕ}
    (h : p.bookingId ≠ bid) (total : ℤ) :
    derivePaymentStatus (p :: ps) bid total = derivePaymentStatus ps bid total := by
  have h1 : isConfirmedCharge bid p = false := by simp [isConfirmedCharge, h]
  have h2 : isConfirmedRefund bid p = false := by simp [isConfirmedRefund, h]
  simp only [derivePaymentStatus, paidAmount, refundedAmount, List.filter_cons, h1, h2]
  simp

/-- A booking no payment refers to derives UNPAID. -/
theorem derivePaymentStatus_unrelated {ps : List Payment} {bid : ℕ}
    (h : ∀ p ∈ ps, p.bookingId ≠ bid) (total : ℤ) :
    derivePaymentStatus ps bid total = PayStatus.unpaid := by
  induction ps with
  | nil => simp [derivePaymentStatus, paidAmount, refundedAmount, sumAmounts]
  | cons p ps ih =>
    rw [derivePaymentStatus_cons_ne (h p (by simp)) total]
    exact ih fun q hq => h q (by simp [hq])

/-- Setting an equipment status keeps every key present. -/
theorem exists_mem_set (k j : ℕ) (es : EStatus) {l : List (ℕ × EStatus)}
    (h : ∃ v, (k, v) ∈ l) : ∃ v, (k, v) ∈ setEquipmentStatus l j es := by
  rcases h with ⟨v, hv⟩
  have hm := List.mem_map_of_mem (fun p => if p.1 = j then (p.1, es) else p) hv
  by_cases hk : k = j
  · exact ⟨es, by simpa [setEquipmentStatus, hk] using hm⟩
  · exact ⟨v, by simpa [setEquipmentStatus, hk] using hm⟩

/-- An equipment effect keeps every key present. -/
theorem exists_mem_applyEffect (k j : ℕ) (o : Option EStatus) {l : List (ℕ × EStatus)}
    (h : ∃ v, (k, v) ∈ l) : ∃ v, (k, v) ∈ applyEquipEffect l j o := by
  cases o with
  | none => exact h
  | some es => exact exists_mem_set k j es h

theorem lookupEquip_cons (q : ℕ × EStatus) (l : List (ℕ × EStatus)) (k : ℕ) :
    lookupEquip (q :: l) k = if q.1 = k then some q.2 else lookupEquip l k := by
  by_cases h : q.1 = k
  · rw [lookupEquip, List.find?_cons_of_pos _ (by simpa using h)]
    simp [h]
  · rw [lookupEquip, List.find?_cons_of_neg _ (by simpa using h)]
    simp [h, lookupEquip]

/-- After forcing the status of a present unit, looking it up returns the
forced status. -/
theorem lookupEquip_set_self {l : List (ℕ × EStatus)} {k : ℕ} (es : EStatus)
    (h : ∃ v, (k, v) ∈ l) : lookupEquip (setEquipmentStatus l k es) k = some es := by
  induction l with
  | nil => rcases h with ⟨v, hv⟩; cases hv
  | cons p l ih =>
    by_cases hk : p.1 = k
    · have : setEquipmentStatus (p :: l) k es = (p.1, es) :: setEquipmentStatus l k es := by
        simp [setEquipmentStatus, hk]
      rw [this, lookupEquip_cons]
      simp [hk]
    · have : setEquipmentStatus (p :: l) k es = p :: setEquipmentStatus l k es := by
        simp [setEquipmentStatus, hk]
      rw [this, lookupEquip_cons, if_neg hk]
      rcases h with ⟨v, hv⟩
      rcases List.mem_cons.mp hv with heq | hmem
      · exact absurd (congrArg Prod.fst heq).symm hk
      · exact ih ⟨v, hmem⟩

/-- Adding equipment preserves the invariant. -/
theorem sysInv_addEquipment {st st1 : MState} {eqId : ℕ} (hI : SysInv st)
    (h : applyCmd st (Cmd.addEquipment eqId) = Except.ok st1) : SysInv st1 := by
  simp only [applyCmd] at h
  split_ifs at h with h1
  simp only [Except.ok.injEq] at h
  subst h
  exact { hI with
    equipExists := fun b hb => by
      rcases hI.equipExists b hb with ⟨v, hv⟩
      exact ⟨v, List.mem_cons_of_mem _ hv⟩ }

/-- Creating a booking preserves the invariant. -/
theorem sysInv_createBooking {st st1 : MState} {bid eqId fUid oUid : ℕ} {s e total : ℤ}
    (hI : SysInv st)
    (h : applyCmd st (Cmd.createBooking bid eqId fUid oUid s e total) = Except.ok st1) :
    SysInv st1 := by
  simp only [applyCmd] at h
  split_ifs at h with h1 h2 h3 h4 h5
  · simp only [Except.ok.injEq] at h
    subst h
    have hfresh : ∀ b ∈ st.bookings, b.id ≠ bid := by
      intro b hb hbid
      exact h3 (List.any_eq_true.mpr ⟨b, hb, by simp [hbid]⟩)
    have hequip : ∃ p ∈ st.equipment, p.1 = eqId := by
      rcases Bool.eq_false_or_eq_true (st.equipment.any fun p => decide (p.1 = eqId)) with ht | hf
      · simpa using List.any_eq_true.mp ht
      · exact absurd (show (!st.equipment.any fun p => decide (p.1 = eqId)) = true by
          simp [hf]) h4
    have hnoconf : ∀ b ∈ st.bookings, conflictsWith eqId s e b = false := by
      intro b hb
      rcases Bool.eq_false_or_eq_true (conflictsWith eqId s e b) with ht | hf
      · exact absurd (List.any_eq_true.mpr ⟨b, hb, ht⟩) h5
      · exact hf
    refine {
      idsNodup := List.pairwise_cons.mpr ⟨fun b hb hid => hfresh b hb hid.symm, hI.idsNodup⟩
      dates := ?_
      totals := ?_
      equipExists := ?_
      noOverlap := List.pairwise_cons.mpr ⟨?_, hI.noOverlap⟩
      txNodup := hI.txNodup
      payHasBooking := fun p hp => by
        rcases hI.payHasBooking p hp with ⟨b, hb, hid⟩
        exact ⟨b, List.mem_cons_of_mem _ hb, hid⟩
      payDerived := ?_
      payoutNodup := hI.payoutNodup
      payoutCompleted := fun po hpo => by
        rcases hI.payoutCompleted po hpo with ⟨b, hb, hid, hst⟩
        exact ⟨b, List.mem_cons_of_mem _ hb, hid, hst⟩
      completedPayout := ?_
      payoutArith := hI.payoutArith
      reviewNodup := hI.reviewNodup
      reviewParties := fun r hr => by
        rcases hI.reviewParties r hr with ⟨b, hb, hid, hp⟩
        exact ⟨b, List.mem_cons_of_mem _ hb, hid, hp⟩ }
    · intro b hb
      rcases List.mem_cons.mp hb with rfl | hb2
      · exact not_lt.mp h1
      · exact hI.dates b hb2
    · intro b hb
      rcases List.mem_cons.mp hb with rfl | hb2
      · exact not_lt.mp h2
      · exact hI.totals b hb2
    · intro b hb
      rcases List.mem_cons.mp hb with rfl | hb2
      · rcases hequip with ⟨p, hp, hpe⟩
        exact ⟨p.2, by rw [show (⟨bid, eqId, fUid, oUid, s, e, total, .pending,
          .unpaid⟩ : Booking).equipmentId = eqId from rfl, ← hpe, Prod.mk.eta]; exact hp⟩
      · exact hI.equipExists b hb2
    · intro b hb heq h1blk h2blk
      rcases Bool.eq_false_or_eq_true
        (datesOverlap s e b.requestedStartDate b.requestedEndDate) with ht | hf
      · exfalso
        have hbe : b.equipmentId = eqId := heq.symm
        have hov : datesOverlap b.requestedStartDate b.requestedEndDate s e = true :=
          (datesOverlap_comm b.requestedStartDate b.requestedEndDate s e).trans ht
        have hcw : conflictsWith eqId s e b = true := by
          simp [conflictsWith, hbe, h2blk, hov]
        rw [hnoconf b hb] at hcw
        exact Bool.false_ne_true hcw
      · exact hf
    · intro b hb
      rcases List.mem_cons.mp hb with rfl | hb2
      · have hnone : ∀ p ∈ st.payments, p.bookingId ≠ bid := by
          intro p hp hpb
          rcases hI.payHasBooking p hp with ⟨b', hb', hid⟩
          exact hfresh b' hb' (hid.trans hpb)
        exact (derivePaymentStatus_unrelated hnone total).symm
      · exact hI.payDerived b hb2
    · intro b hb hcomp
      rcases List.mem_cons.mp hb with rfl | hb2
      · exact BStatus.noConfusion hcomp
      · exact hI.completedPayout b hb2 hcomp

/-- A status transition preserves the invariant. -/
theorem sysInv_transition {st st1 : MState} {bid : ℕ} {new : BStatus} (hI : SysInv st)
    (h : applyCmd st (Cmd.transition bid new) = Except.ok st1) : SysInv st1 := by
  simp only [applyCmd] at h
  split at h
  case _ => exact Except.noConfusion h
  case _ b0 hfd =>
    split at h
    rotate_left
    · exact Except.noConfusion h
    rename_i hallow
    have hb0mem : b0 ∈ st.bookings := List.mem_of_find?_eq_some hfd
    have hb0id : b0.id = bid := by
      have hx := List.find?_some hfd
      simpa using hx
    have hnotcomp : b0.status ≠ BStatus.completed := allowed_src_ne_completed hallow
    have hIds : (setBookingStatus st.bookings bid new).Pairwise
        (fun a b => a.id ≠ b.id) := by
      refine List.pairwise_map.mpr (hI.idsNodup.imp ?_)
      intro a b hab
      simpa [updStatus_id] using hab
    have hDates : ∀ b ∈ setBookingStatus st.bookings bid new,
        b.requestedStartDate ≤ b.requestedEndDate := by
      intro b hb
      simp only [setBookingStatus, List.mem_map] at hb
      rcases hb with ⟨a, ha, rfl⟩
      rw [updStatus_start, updStatus_end]
      exact hI.dates a ha
    have hTotals : ∀ b ∈ setBookingStatus st.bookings bid new, 0 ≤ b.totalAmount := by
      intro b hb
      simp only [setBookingStatus, List.mem_map] at hb
      rcases hb with ⟨a, ha, rfl⟩
      rw [updStatus_total]
      exact hI.totals a ha
    have hEquip : ∀ b ∈ setBookingStatus st.bookings bid new,
        ∃ v, (b.equipmentId, v) ∈
          applyEquipEffect st.equipment b0.equipmentId (equipmentEffect new) := by
      intro b hb
      simp only [setBookingStatus, List.mem_map] at hb
      rcases hb with ⟨a, ha, rfl⟩
      rw [updStatus_equipmentId]
      exact exists_mem_applyEffect _ _ _ (hI.equipExists a ha)
    have hNoOv : (setBookingStatus st.bookings bid new).Pairwise noConflictPair := by
      refine List.pairwise_map.mpr (List.Pairwise.imp_of_mem ?_ hI.noOverlap)
      intro a b ha hb hab heq hblk1 hblk2
      rw [updStatus_equipmentId, updStatus_equipmentId] at heq
      rw [updStatus_status] at hblk1 hblk2
      rw [updStatus_start, updStatus_end, updStatus_start, updStatus_end]
      have hblk1a : a.status.blocksDates = true := by
        by_cases haid : a.id = bid
        · rw [if_pos haid] at hblk1
          have hax : a = b0 := mem_unique_id hI.idsNodup ha hb0mem (haid.trans hb0id.symm)
          rw [hax]
          exact allowed_blocks hallow hblk1
        · rwa [if_neg haid] at hblk1
      have hblk2a : b.status.blocksDates = true := by
        by_cases hbid2 : b.id = bid
        · rw [if_pos hbid2] at hblk2
          have hbx : b = b0 := mem_unique_id hI.idsNodup hb hb0mem (hbid2.trans hb0id.symm)
          rw [hbx]
          exact allowed_blocks hallow hblk2
        · rwa [if_neg hbid2] at hblk2
      exact hab heq hblk1a hblk2a
    have hPayB : ∀ p ∈ st.payments,
        ∃ b ∈ setBookingStatus st.bookings bid new, b.id = p.bookingId := by
      intro p hp
      rcases hI.payHasBooking p hp with ⟨b, hb, hid⟩
      refine ⟨updStatus bid new b, List.mem_map_of_mem _ hb, ?_⟩
      rw [updStatus_id]
      exact hid
    have hPayD : ∀ b ∈ setBookingStatus st.bookings bid new,
        b.paymentStatus = derivePaymentStatus st.payments b.id b.totalAmount := by
      intro b hb
      simp only [setBookingStatus, List.mem_map] at hb
      rcases hb with ⟨a, ha, rfl⟩
      rw [updStatus_payment, updStatus_id, updStatus_total]
      exact hI.payDerived a ha
    have hRevP : ∀ r ∈ st.reviews,
        ∃ b ∈ setBookingStatus st.bookings bid new, b.id = r.bookingId ∧
          ((r.reviewerId = b.farmerUserId ∧ r.revieweeId = b.operatorUserId) ∨
           (r.reviewerId = b.operatorUserId ∧ r.revieweeId = b.farmerUserId)) := by
      intro r hr
      rcases hI.reviewParties r hr with ⟨b, hb, hid, hp⟩
      refine ⟨updStatus bid new b, List.mem_map_of_mem _ hb, ?_, ?_⟩
      · rw [updStatus_id]
        exact hid
      · rw [updStatus_farmer, updStatus_operator]
        exact hp
    by_cases hnew : new = BStatus.completed
    · rw [if_pos hnew] at h
      simp only [Except.ok.injEq] at h
      subst h
      refine {
        idsNodup := hIds, dates := hDates, totals := hTotals, equipExists := hEquip
        noOverlap := hNoOv, txNodup := hI.txNodup, payHasBooking := hPayB
        payDerived := hPayD, reviewNodup := hI.reviewNodup, reviewParties := hRevP
        payoutNodup := ?_, payoutCompleted := ?_, completedPayout := ?_
        payoutArith := ?_ }
      · refine List.pairwise_cons.mpr ⟨?_, hI.payoutNodup⟩
        intro po hpo hEq
        rcases hI.payoutCompleted po hpo with ⟨bc, hbc, hbcid, hbccomp⟩
        have hmkid : (mkPayout bid (b0.totalAmount - refundedAmount st.payments bid)
            1000).bookingId = bid := rfl
        have hcb : bc = b0 :=
          mem_unique_id hI.idsNodup hbc hb0mem (by rw [hbcid, ← hEq, hmkid, hb0id])
        exact hnotcomp (by rw [← hcb]; exact hbccomp)
      · intro po hpo
        rcases List.mem_cons.mp hpo with rfl | hpo2
        · refine ⟨updStatus bid new b0, List.mem_map_of_mem _ hb0mem, ?_, ?_⟩
          · rw [updStatus_id]
            exact hb0id
          · rw [updStatus_status, if_pos hb0id]
            exact hnew
        · rcases hI.payoutCompleted po hpo2 with ⟨bc, hbc, hbcid, hbccomp⟩
          refine ⟨updStatus bid new bc, List.mem_map_of_mem _ hbc, ?_, ?_⟩
          · rw [updStatus_id]
            exact hbcid
          · rw [updStatus_status]
            split
            · exact hnew
            · exact hbccomp
      · intro b hb hcomp
        simp only [setBookingStatus, List.mem_map] at hb
        rcases hb with ⟨a, ha, rfl⟩
        rw [updStatus_status] at hcomp
        by_cases haid : a.id = bid
        · exact ⟨mkPayout bid (b0.totalAmount - refundedAmount st.payments bid) 1000,
            List.mem_cons_self _ _, by rw [updStatus_id]; exact haid.symm⟩
        · rw [if_neg haid] at hcomp
          rcases hI.completedPayout a ha hcomp with ⟨po, hpo, hpoid⟩
          exact ⟨po, List.mem_cons_of_mem _ hpo, by rw [updStatus_id]; exact hpoid⟩
      · intro po hpo
        rcases List.mem_cons.mp hpo with rfl | hpo2
        · exact ⟨rfl, rfl⟩
        · exact hI.payoutArith po hpo2
    · rw [if_neg hnew] at h
      simp only [Except.ok.injEq] at h
      subst h
      refine {
        idsNodup := hIds, dates := hDates, totals := hTotals, equipExists := hEquip
        noOverlap := hNoOv, txNodup := hI.txNodup, payHasBooking := hPayB
        payDerived := hPayD, reviewNodup := hI.reviewNodup, reviewParties := hRevP
        payoutNodup := hI.payoutNodup, payoutCompleted := ?_, completedPayout := ?_
        payoutArith := hI.payoutArith }
      · intro po hpo
        rcases hI.payoutCompleted po hpo with ⟨bc, hbc, hbcid, hbccomp⟩
        have hbcne : bc.id ≠ bid := by
          intro hcc
          have hcb : bc = b0 :=
            mem_unique_id hI.idsNodup hbc hb0mem (hcc.trans hb0id.symm)
          exact hnotcomp (by rw [← hcb]; exact hbccomp)
        refine ⟨updStatus bid new bc, List.mem_map_of_mem _ hbc, ?_, ?_⟩
        · rw [updStatus_id]
          exact hbcid
        · rw [updStatus_status, if_neg hbcne]
          exact hbccomp
      · intro b hb hcomp
        simp only [setBookingStatus, List.mem_map] at hb
        rcases hb with ⟨a, ha, rfl⟩
        rw [updStatus_status] at hcomp
        by_cases haid : a.id = bid
        · rw [if_pos haid] at hcomp
          exact absurd hcomp hnew
        · rw [if_neg haid] at hcomp
          rcases hI.completedPayout a ha hcomp with ⟨po, hpo, hpoid⟩
          exact ⟨po, hpo, by rw [updStatus_id]; exact hpoid⟩

/-- Recording a payment preserves the invariant. -/
theorem sysInv_recordPayment {st st1 : MState} {bid txid : ℕ} {pt : PType} {amount : ℤ}
    {conf : Bool} (hI : SysInv st)
    (h : applyCmd st (Cmd.recordPayment bid txid pt amount conf) = Except.ok st1) :
    SysInv st1 := by
  simp only [applyCmd] at h
  split_ifs at h with hdup
  split at h
  case _ => exact Except.noConfusion h
  case _ b0 hfd =>
    simp only [Except.ok.injEq] at h
    subst h
    have hb0mem : b0 ∈ st.bookings := List.mem_of_find?_eq_some hfd
    have hb0id : b0.id = bid := by
      have hx := List.find?_some hfd
      simpa using hx
    have hfresh : ∀ p ∈ st.payments, p.transactionId ≠ txid := by
      intro p hp hc
      exact hdup (List.any_eq_true.mpr ⟨p, hp, by simp [hc]⟩)
    refine {
      idsNodup := ?_, dates := ?_, totals := ?_, equipExists := ?_, noOverlap := ?_
      txNodup := ?_, payHasBooking := ?_, payDerived := ?_
      payoutNodup := hI.payoutNodup, payoutCompleted := ?_, completedPayout := ?_
      payoutArith := hI.payoutArith, reviewNodup := hI.reviewNodup
      reviewParties := ?_ }
    · refine List.pairwise_map.mpr (hI.idsNodup.imp ?_)
      intro a b hab
      simpa [updPayStatus_id] using hab
    · intro b hb
      simp only [recomputePayStatus, List.mem_map] at hb
      rcases hb with ⟨a, ha, rfl⟩
      rw [updPayStatus_start, updPayStatus_end]
      exact hI.dates a ha
    · intro b hb
      simp only [recomputePayStatus, List.mem_map] at hb
      rcases hb with ⟨a, ha, rfl⟩
      rw [updPayStatus_total]
      exact hI.totals a ha
    · intro b hb
      simp only [recomputePayStatus, List.mem_map] at hb
      rcases hb with ⟨a, ha, rfl⟩
      rw [updPayStatus_equipmentId]
      exact hI.equipExists a ha
    · refine List.pairwise_map.mpr (hI.noOverlap.imp ?_)
      intro a b hab heq hb1 hb2
      rw [updPayStatus_equipmentId, updPayStatus_equipmentId] at heq
      rw [updPayStatus_status] at hb1 hb2
      rw [updPayStatus_start, updPayStatus_end, updPayStatus_start, updPayStatus_end]
      exact hab heq hb1 hb2
    · refine List.pairwise_cons.mpr ⟨?_, hI.txNodup⟩
      intro p hp hc
      exact hfresh p hp hc.symm
    · intro p hp
      rcases List.mem_cons.mp hp with rfl | hp2
      · refine ⟨updPayStatus (Payment.mk bid txid pt amount conf :: st.payments) bid b0,
          List.mem_map_of_mem _ hb0mem, ?_⟩
        rw [updPayStatus_id]
        exact hb0id
      · rcases hI.payHasBooking p hp2 with ⟨b, hb, hid⟩
        refine ⟨updPayStatus (Payment.mk bid txid pt amount conf :: st.payments) bid b,
          List.mem_map_of_mem _ hb, ?_⟩
        rw [updPayStatus_id]
        exact hid
    · intro b hb
      simp only [recomputePayStatus, List.mem_map] at hb
      rcases hb with ⟨a, ha, rfl⟩
      rw [updPayStatus_payment, updPayStatus_id, updPayStatus_total]
      by_cases haid : a.id = bid
      · rw [if_pos haid]
      · rw [if_neg haid]
        have hne : bid ≠ a.id := fun hc => haid hc.symm
        rw [derivePaymentStatus_cons_ne hne]
        exact hI.payDerived a ha
    · intro po hpo
      rcases hI.payoutCompleted po hpo with ⟨bc, hbc, hbcid, hbccomp⟩
      refine ⟨updPayStatus (Payment.mk bid txid pt amount conf :: st.payments) bid bc,
        List.mem_map_of_mem _ hbc, ?_, ?_⟩
      · rw [updPayStatus_id]
        exact hbcid
      · rw [updPayStatus_status]
        exact hbccomp
    · intro b hb hcomp
      simp only [recomputePayStatus, List.mem_map] at hb
      rcases hb with ⟨a, ha, rfl⟩
      rw [updPayStatus_status] at hcomp
      rcases hI.completedPayout a ha hcomp with ⟨po, hpo, hpoid⟩
      refine ⟨po, hpo, ?_⟩
      rw [updPayStatus_id]
      exact hpoid
    · intro r hr
      rcases hI.reviewParties r hr with ⟨b, hb, hid, hp⟩
      refine ⟨updPayStatus (Payment.mk bid txid pt amount conf :: st.payments) bid b,
        List.mem_map_of_mem _ hb, ?_, ?_⟩
      · rw [updPayStatus_id]
        exact hid
      · rw [updPayStatus_farmer, updPayStatus_operator]
        exact hp

/-- Adding a review preserves the invariant. -/
theorem sysInv_addReview {st st1 : MState} {bid reviewer reviewee : ℕ} (hI : SysInv st)
    (h : applyCmd st (Cmd.addReview bid reviewer reviewee) = Except.ok st1) :
    SysInv st1 := by
  simp only [applyCmd] at h
  split at h
  case _ => exact Except.noConfusion h
  case _ b0 hfd =>
    split_ifs at h with hdup hparties
    simp only [Except.ok.injEq] at h
    subst h
    have hb0mem : b0 ∈ st.bookings := List.mem_of_find?_eq_some hfd
    have hb0id : b0.id = bid := by
      have hx := List.find?_some hfd
      simpa using hx
    have hfreshr : ∀ r ∈ st.reviews, ¬(r.bookingId = bid ∧ r.reviewerId = reviewer) := by
      intro r hr hc
      exact hdup (List.any_eq_true.mpr ⟨r, hr, by simp [hc.1, hc.2]⟩)
    refine { hI with
      reviewNodup := List.pairwise_cons.mpr ⟨?_, hI.reviewNodup⟩
      reviewParties := ?_ }
    · intro r hr hbk hrv
      exact hfreshr r hr ⟨hbk.symm, hrv.symm⟩
    · intro r hr
      rcases List.mem_cons.mp hr with rfl | hr2
      · exact ⟨b0, hb0mem, hb0id, hparties⟩
      · exact hI.reviewParties r hr2

/-- Every successful operation preserves the invariant. -/
theorem sysInv_apply {st st1 : MState} {c : Cmd} (hI : SysInv st)
    (h : applyCmd st c = Except.ok st1) : SysInv st1 := by
  cases c with
  | addEquipment eqId => exact sysInv_addEquipment hI h
  | createBooking bid eqId fUid oUid s e total => exact sysInv_createBooking hI h
  | transition bid new => exact sysInv_transition hI h
  | recordPayment bid txid pt amount conf => exact sysInv_recordPayment hI h
  | addReview bid reviewer reviewee => exact sysInv_addReview hI h

/-- Every request (also a failed one) preserves the invariant. -/
theorem sysInv_step {st : MState} (c : Cmd) (hI : SysInv st) : SysInv (step st c) := by
  unfold step
  split
  · rename_i st1 happ
    exact sysInv_apply hI happ
  · exact hI

/-- The initial state satisfies the invariant. -/
theorem sysInv_init : SysInv initState := by
  constructor <;> simp [initState]

/-- Running any request list preserves the invariant. -/
theorem sysInv_runCmds (cs : List Cmd) : ∀ st, SysInv st → SysInv (runCmds st cs) := by
  induction cs with
  | nil => intro st hI; exact hI
  | cons c cs ih => intro st hI; exact ih _ (sysInv_step c hI)

/-- Every reachable state satisfies the invariant. -/
theorem sysInv_reachable {st : MState} (h : Reachable st) : SysInv st := by
  rcases h with ⟨cs, rfl⟩
  exact sysInv_runCmds cs initState sysInv_init

/-- `roundCents` is rounding to the nearest integer, in Mathlib's sense,
of the scaled quotient. -/
theorem roundCents_eq_round (a : ℤ) : roundCents a = round ((a : ℚ) / 10000) := by
  rw [round_eq]
  have hx : ((a : ℚ) / 10000 + 1 / 2) = ((2 * a + 10000 : ℤ) : ℚ) / ((20000 : ℕ) : ℚ) := by
    push_cast
    ring
  rw [hx, Rat.floor_intCast_div_natCast]
  norm_num [roundCents]

/-- C10: an `Equipment.daily_rate` passing the model validation satisfies
`daily_rate >= 0.01`: the `MinValueValidator(Decimal('0.01'))` rejects
negative values, zero, and every positive value below `0.01`, so a
validated listing always has a strictly positive daily rate. -/
theorem C10_daily_rate_validation (v : DecimalVal) :
    dailyRateValid v = true ↔ ((1 : ℚ) / 100 ≤ v.toRat ∧ 0 < v.toRat) := by
  have h10 : (0 : ℚ) < 10 ^ v.exp := by positivity
  have hiff : dailyRateValid v = true ↔ 1 * 10 ^ v.exp ≤ v.mant * 10 ^ (2 : ℕ) := by
    simp [dailyRateValid, minValueValidatorOk, DecimalVal.lt, dailyRateMin, not_lt]
  have hrat : (1 : ℚ) / 100 ≤ v.toRat ↔ 1 * 10 ^ v.exp ≤ v.mant * 10 ^ (2 : ℕ) := by
    rw [DecimalVal.toRat, div_le_div_iff₀ (by norm_num) h10]
    constructor
    · intro hq
      have hq2 : ((1 * 10 ^ v.exp : ℤ) : ℚ) ≤ ((v.mant * 10 ^ (2 : ℕ) : ℤ) : ℚ) := by
        push_cast
        push_cast at hq
        linarith
      exact_mod_cast hq2
    · intro hz
      have hq2 : ((1 * 10 ^ v.exp : ℤ) : ℚ) ≤ ((v.mant * 10 ^ (2 : ℕ) : ℤ) : ℚ) := by
        exact_mod_cast hz
      push_cast at hq2
      linarith
  rw [hiff, ← hrat]
  constructor
  · intro hq
    exact ⟨hq, lt_of_lt_of_le (by norm_num) hq⟩
  · intro hq
    exact hq.1

/-- C1: in every reachable state, no two bookings in a non-cancelled,
non-completed state on the same equipment have intersecting
[requested_start_date, requested_end_date] ranges; and a creation request
that overlaps such a booking on the same equipment (and is otherwise
well-formed) fails with a Conflict error. -/
theorem C1_no_double_booking :
    (∀ st, Reachable st → st.bookings.Pairwise noConflictPair) ∧
    (∀ st bid eqId fUid oUid s e total, ¬e < s → ¬total < 0 →
      (∀ b ∈ st.bookings, b.id ≠ bid) →
      (∃ p ∈ st.equipment, p.1 = eqId) →
      (∃ b ∈ st.bookings, conflictsWith eqId s e b = true) →
      applyCmd st (Cmd.createBooking bid eqId fUid oUid s e total) =
        Except.error Err.conflict) := by
  constructor
  · intro st h
    exact (sysInv_reachable h).noOverlap
  · intro st bid eqId fUid oUid s e total h1 h2 h3 h4 h5
    have g3 : ¬((st.bookings.any fun b => decide (b.id = bid)) = true) := by
      intro hc
      rcases List.any_eq_true.mp hc with ⟨b, hb, hbd⟩
      exact h3 b hb (by simpa using hbd)
    have g4 : ¬((!st.equipment.any fun p => decide (p.1 = eqId)) = true) := by
      rcases h4 with ⟨p, hp, hpe⟩
      have hx : (st.equipment.any fun p => decide (p.1 = eqId)) = true :=
        List.any_eq_true.mpr ⟨p, hp, by simpa using hpe⟩
      simp [hx]
    have g5 : (st.bookings.any (conflictsWith eqId s e)) = true := by
      rcases h5 with ⟨b, hb, hbc⟩
      exact List.any_eq_true.mpr ⟨b, hb, hbc⟩
    simp only [applyCmd]
    rw [if_neg h1, if_neg h2, if_neg g3, if_neg g4, if_pos g5]

/-- Witness for C1: the reachable `demoMid` state holds a CONFIRMED booking
for equipment 1 over days 5-8; its booking table is conflict-free and a
second request for days 6-9 is rejected with Conflict. -/
theorem C1_no_double_booking_witness :
    demoMidSt.bookings.Pairwise noConflictPair ∧
    applyCmd demoMidSt (Cmd.createBooking 2 1 20 21 6 9 5000) =
      Except.error Err.conflict := by
  constructor
  · exact C1_no_double_booking.1 demoMidSt ⟨demoMid, rfl⟩
  · exact C1_no_double_booking.2 demoMidSt 2 1 20 21 6 9 5000 (by decide) (by decide)
      (by decide) ⟨(1, EStatus.rented), by decide, rfl⟩
      ⟨⟨1, 1, 10, 11, 5, 8, 10000, .confirmed, .unpaid⟩, by decide, by decide⟩

/-- C2: in every reachable state, each payout satisfies
`net_amount = gross_amount - platform_fee_amount` and
`platform_fee_amount` is `gross_amount * platform_fee_percent / 100`
rounded to two decimal places (nearest cent); in particular a payout over
gross 10000.00 at 10.00 percent has fee 1000.00 and net 9000.00
(1000000, 1000, 100000 and 900000 in the scaled integer encoding). -/
theorem C2_payout_arithmetic :
    (∀ st, Reachable st → ∀ po ∈ st.payouts,
      po.netAmount = po.grossAmount - po.platformFeeAmount ∧
      po.platformFeeAmount =
        round ((po.grossAmount * po.platformFeePercent : ℚ) / 10000)) ∧
    ((mkPayout 1 1000000 1000).platformFeeAmount = 100000 ∧
      (mkPayout 1 1000000 1000).netAmount = 900000) := by
  constructor
  · intro st h po hpo
    rcases (sysInv_reachable h).payoutArith po hpo with ⟨hfee, hnet⟩
    refine ⟨hnet, ?_⟩
    rw [hfee, roundCents_eq_round]
    norm_cast
  · exact ⟨by decide, by decide⟩

/-- Witness for C2 at the payout of the reachable `demoFull` run. -/
theorem C2_payout_arithmetic_witness :
    (⟨1, 10000, 1000, 1000, 9000⟩ : Payout).netAmount =
      (⟨1, 10000, 1000, 1000, 9000⟩ : Payout).grossAmount -
        (⟨1, 10000, 1000, 1000, 9000⟩ : Payout).platformFeeAmount ∧
    (⟨1, 10000, 1000, 1000, 9000⟩ : Payout).platformFeeAmount =
      round (((⟨1, 10000, 1000, 1000, 9000⟩ : Payout).grossAmount *
        (⟨1, 10000, 1000, 1000, 9000⟩ : Payout).platformFeePercent : ℚ) / 10000) :=
  C2_payout_arithmetic.1 demoSt ⟨demoFull, rfl⟩ ⟨1, 10000, 1000, 1000, 9000⟩ (by decide)

/-- C3: in every reachable state, every booking's stored payment_status
equals the value recomputed from the confirmed-payment ledger by the
deterministic pure function `derivePaymentStatus`. -/
theorem C3_payment_status_derived :
    ∀ st, Reachable st → ∀ b ∈ st.bookings,
      b.paymentStatus = derivePaymentStatus st.payments b.id b.totalAmount := by
  intro st h
  exact (sysInv_reachable h).payDerived

/-- Witness for C3 at the fully paid booking of the `demoFull` run. -/
theorem C3_payment_status_derived_witness :
    (⟨1, 1, 10, 11, 5, 8, 10000, BStatus.completed,
        PayStatus.fullyPaid⟩ : Booking).paymentStatus =
      derivePaymentStatus demoSt.payments
        (⟨1, 1, 10, 11, 5, 8, 10000, BStatus.completed,
          PayStatus.fullyPaid⟩ : Booking).id
        (⟨1, 1, 10, 11, 5, 8, 10000, BStatus.completed,
          PayStatus.fullyPaid⟩ : Booking).totalAmount :=
  C3_payment_status_derived demoSt ⟨demoFull, rfl⟩ _ (by decide)

/-- C4: a booking in a terminal state (COMPLETED, CANCELLED_FARMER,
CANCELLED_OPERATOR or DISPUTED) admits no further transition: every
attempted transition out of it fails with an InvalidTransition error. -/
theorem C4_terminal_states_frozen :
    ∀ st bid new b, st.bookings.find? (fun x => decide (x.id = bid)) = some b →
      b.status.isTerminal = true →
      applyCmd st (Cmd.transition bid new) = Except.error Err.invalidTransition := by
  intro st bid new b hfd hterm
  simp only [applyCmd, hfd]
  rw [terminal_not_allowed hterm]
  simp

/-- Witness for C4: the COMPLETED booking of the `demoFull` run cannot go
back to PENDING. -/
theorem C4_terminal_states_frozen_witness :
    applyCmd demoSt (Cmd.transition 1 BStatus.pending) =
      Except.error Err.invalidTransition :=
  C4_terminal_states_frozen demoSt 1 BStatus.pending
    ⟨1, 1, 10, 11, 5, 8, 10000, .completed, .fullyPaid⟩ (by decide) (by decide)

/-- C5: whenever a booking enters CONFIRMED or IN_PROGRESS its equipment
is set to RENTED, and whenever it reaches COMPLETED or a cancelled state
the equipment is reverted to AVAILABLE; in particular the full
PENDING→CONFIRMED→IN_PROGRESS→COMPLETED run of `demoFull` ends with
equipment 1 AVAILABLE. -/
theorem C5_equipment_status_sync :
    (∀ st bid new st1 b, Reachable st →
      applyCmd st (Cmd.transition bid new) = Except.ok st1 →
      st.bookings.find? (fun x => decide (x.id = bid)) = some b →
      ((new = BStatus.confirmed ∨ new = BStatus.inProgress) →
        lookupEquip st1.equipment b.equipmentId = some EStatus.rented) ∧
      ((new = BStatus.completed ∨ new = BStatus.cancelledFarmer ∨
          new = BStatus.cancelledOperator) →
        lookupEquip st1.equipment b.equipmentId = some EStatus.available)) ∧
    lookupEquip demoSt.equipment 1 = some EStatus.available := by
  constructor
  · intro st bid new st1 b hre happ hfd
    have hex : ∃ v, (b.equipmentId, v) ∈ st.equipment :=
      (sysInv_reachable hre).equipExists b (List.mem_of_find?_eq_some hfd)
    simp only [applyCmd, hfd] at happ
    split at happ
    rotate_left
    · exact Except.noConfusion happ
    simp only [Except.ok.injEq] at happ
    subst happ
    constructor
    · intro hnew
      rcases hnew with rfl | rfl
      · exact lookupEquip_set_self _ hex
      · exact lookupEquip_set_self _ hex
    · intro hnew
      rcases hnew with rfl | rfl | rfl
      · exact lookupEquip_set_self _ hex
      · exact lookupEquip_set_self _ hex
      · exact lookupEquip_set_self _ hex
  · decide

/-- Witness for C5: confirming the pending booking of `demoPre` marks
equipment 1 as RENTED. -/
theorem C5_equipment_status_sync_witness :
    lookupEquip (step demoPreSt (Cmd.transition 1 BStatus.confirmed)).equipment
      (⟨1, 1, 10, 11, 5, 8, 10000, BStatus.pending,
        PayStatus.unpaid⟩ : Booking).equipmentId = some EStatus.rented :=
  (C5_equipment_status_sync.1 demoPreSt 1 BStatus.confirmed
      (step demoPreSt (Cmd.transition 1 BStatus.confirmed))
      ⟨1, 1, 10, 11, 5, 8, 10000, BStatus.pending, PayStatus.unpaid⟩
      ⟨demoPre, rfl⟩ rfl (by decide)).1 (Or.inl rfl)

/-- C6: in every reachable state every booking satisfies
`requested_end_date >= requested_start_date`, and a creation request with
the end date before the start date is rejected with a validation error. -/
theorem C6_date_order :
    (∀ st, Reachable st → ∀ b ∈ st.bookings,
      b.requestedStartDate ≤ b.requestedEndDate) ∧
    (∀ st bid eqId fUid oUid s e total, e < s →
      applyCmd st (Cmd.createBooking bid eqId fUid oUid s e total) =
        Except.error Err.validation) := by
  constructor
  · intro st h
    exact (sysInv_reachable h).dates
  · intro st bid eqId fUid oUid s e total hlt
    simp only [applyCmd]
    rw [if_pos hlt]

/-- Witness for C6: the demo booking has ordered dates, and a request for
days 9 down to 5 is rejected. -/
theorem C6_date_order_witness :
    (⟨1, 1, 10, 11, 5, 8, 10000, BStatus.completed,
        PayStatus.fullyPaid⟩ : Booking).requestedStartDate ≤
      (⟨1, 1, 10, 11, 5, 8, 10000, BStatus.completed,
        PayStatus.fullyPaid⟩ : Booking).requestedEndDate ∧
    applyCmd demoSt (Cmd.createBooking 3 1 20 21 9 5 100) =
      Except.error Err.validation :=
  ⟨C6_date_order.1 demoSt ⟨demoFull, rfl⟩ _ (by decide),
    C6_date_order.2 demoSt 3 1 20 21 9 5 100 (by decide)⟩

/-- C7: transaction ids are globally unique across all payments in every
reachable state, and submitting a payment with an already-used
transaction_id fails with a DuplicateTransaction error and leaves the
state (hence the payment table) unchanged. -/
theorem C7_transaction_ids_unique :
    (∀ st, Reachable st →
      st.payments.Pairwise fun p q => p.transactionId ≠ q.transactionId) ∧
    (∀ st bid txid pt amount conf, (∃ p ∈ st.payments, p.transactionId = txid) →
      applyCmd st (Cmd.recordPayment bid txid pt amount conf) =
          Except.error Err.duplicateTransaction ∧
        step st (Cmd.recordPayment bid txid pt amount conf) = st) := by
  constructor
  · intro st h
    exact (sysInv_reachable h).txNodup
  · intro st bid txid pt amount conf hdup
    have hany : (st.payments.any fun p => decide (p.transactionId = txid)) = true := by
      rcases hdup with ⟨p, hp, he⟩
      exact List.any_eq_true.mpr ⟨p, hp, by simp [he]⟩
    constructor
    · simp only [applyCmd]
      rw [if_pos hany]
    · unfold step
      simp only [applyCmd]
      rw [if_pos hany]

/-- Witness for C7: re-submitting transaction id 501 of the `demoFull` run
is rejected and changes nothing. -/
theorem C7_transaction_ids_unique_witness :
    demoSt.payments.Pairwise (fun p q => p.transactionId ≠ q.transactionId) ∧
    applyCmd demoSt (Cmd.recordPayment 1 501 PType.final 100 true) =
        Except.error Err.duplicateTransaction ∧
      step demoSt (Cmd.recordPayment 1 501 PType.final 100 true) = demoSt :=
  ⟨C7_transaction_ids_unique.1 demoSt ⟨demoFull, rfl⟩,
    C7_transaction_ids_unique.2 demoSt 1 501 PType.final 100 true
      ⟨⟨1, 501, PType.deposit, 4000, true⟩, by decide, rfl⟩⟩

/-- C8: in every reachable state each booking has at most one payout, every
payout belongs to a COMPLETED booking, and every COMPLETED booking has a
payout. -/
theorem C8_one_payout_per_completed_booking :
    ∀ st, Reachable st →
      (st.payouts.Pairwise fun p q => p.bookingId ≠ q.bookingId) ∧
      (∀ po ∈ st.payouts, ∃ b ∈ st.bookings,
        b.id = po.bookingId ∧ b.status = BStatus.completed) ∧
      (∀ b ∈ st.bookings, b.status = BStatus.completed →
        ∃ po ∈ st.payouts, po.bookingId = b.id) := by
  intro st h
  have hI := sysInv_reachable h
  exact ⟨hI.payoutNodup, hI.payoutCompleted, hI.completedPayout⟩

/-- Witness for C8 at the completed `demoFull` run. -/
theorem C8_one_payout_per_completed_booking_witness :
    (demoSt.payouts.Pairwise fun p q => p.bookingId ≠ q.bookingId) ∧
    (∀ po ∈ demoSt.payouts, ∃ b ∈ demoSt.bookings,
      b.id = po.bookingId ∧ b.status = BStatus.completed) ∧
    (∀ b ∈ demoSt.bookings, b.status = BStatus.completed →
      ∃ po ∈ demoSt.payouts, po.bookingId = b.id) :=
  C8_one_payout_per_completed_booking demoSt ⟨demoFull, rfl⟩

/-- C9: in every reachable state there is at most one review per
(booking, reviewer) pair, and each review's reviewer and reviewee are the
booking's farmer user and operator user, in some order. -/
theorem C9_review_constraints :
    ∀ st, Reachable st →
      (st.reviews.Pairwise fun r q =>
        r.bookingId = q.bookingId → r.reviewerId ≠ q.reviewerId) ∧
      (∀ r ∈ st.reviews, ∃ b ∈ st.bookings, b.id = r.bookingId ∧
        ((r.reviewerId = b.farmerUserId ∧ r.revieweeId = b.operatorUserId) ∨
         (r.reviewerId = b.operatorUserId ∧ r.revieweeId = b.farmerUserId))) := by
  intro st h
  have hI := sysInv_reachable h
  exact ⟨hI.reviewNodup, hI.reviewParties⟩

/-- Witness for C9 at the twice-reviewed `demoFull` run. -/
theorem C9_review_constraints_witness :
    (demoSt.reviews.Pairwise fun r q =>
      r.bookingId = q.bookingId → r.reviewerId ≠ q.reviewerId) ∧
    (∀ r ∈ demoSt.reviews, ∃ b ∈ demoSt.bookings, b.id = r.bookingId ∧
      ((r.reviewerId = b.farmerUserId ∧ r.revieweeId = b.operatorUserId) ∨
       (r.reviewerId = b.operatorUserId ∧ r.revieweeId = b.farmerUserId))) :=
  C9_review_constraints demoSt ⟨demoFull, rfl⟩
